import Mathlib

/-!
Shallow embedding of the data-aggregation core of the swarm-rankings
repository: the leaderboard builder (supabase/functions/leaderboard/index.ts)
and the chain synchronizer (supabase/functions/blockchain-listener/index.ts,
Blockscout variant), together with the durable-store semantics fixed by the
migration (UNIQUE (transaction_hash, peer_id) plus upsert with
ignoreDuplicates).

Modelling conventions:
* JavaScript numbers are modelled as `Int` (all operations used by the code on
  them are `+`, `max` and comparisons, which are exact on integers).
* `a ?? b` (nullish coalescing) is `jsCoalesce`; `a || b` on numbers/strings is
  `jsOrInt`/`jsOrStr` (0 and the empty string are falsy).
* A JavaScript `Map` is an insertion-ordered association list: `mapSet`
  replaces in place or appends, `mapGet` finds the unique binding.
* `peerId.localeCompare` is modelled as the lexicographic order on `String`.
* Network calls are inputs: an `Option` that is `none` when the call throws.
* Wall-clock time is a `Nat` millisecond timestamp passed to each call; a call
  is modelled as atomic at its timestamp.
-/

/-- JS `a ?? b ?? ... ?? d`: first present value, else the default. -/
def jsCoalesce : List (Option Int) → Int → Int
  | [], d => d
  | some v :: _, _ => v
  | none :: rest, d => jsCoalesce rest d

/-- JS `a || b || ... || d` on numbers: first present non-zero value, else the
default (0 is falsy). -/
def jsOrInt : List (Option Int) → Int → Int
  | [], d => d
  | some v :: rest, d => if v = 0 then jsOrInt rest d else v
  | none :: rest, d => jsOrInt rest d

/-- JS `a || b || ...` on strings combined with a truthiness guard: the first
present non-empty string, if any (the empty string is falsy). -/
def jsOrStr : List (Option String) → Option String
  | [] => none
  | some s :: rest => if s = String.mk [] then jsOrStr rest else some s
  | none :: rest => jsOrStr rest

/-- JS `metadata?.last_synced_block || START_BLOCK` on naturals. -/
def jsOrNat (o : Option Nat) (d : Nat) : Nat :=
  match o with
  | some n => if n = 0 then d else n
  | none => d

/-- Provenance of a merged peer metric (`source` field in the code). -/
inductive Source
  | api
  | blockchain
  | both
deriving DecidableEq

/-- The value stored in the peer map:
`{ participations: number; wins: number; source }`. -/
structure Metric where
  participations : Int
  wins : Int
  source : Source
deriving DecidableEq

/-- A JS `Map<string, Metric>` as an insertion-ordered association list with
distinct keys. -/
abbrev PeerMap := List (String × Metric)

/-- `Map.get`: the binding of the first (unique) occurrence of the key. -/
def mapGet (m : PeerMap) (k : String) : Option Metric :=
  match m with
  | [] => none
  | (k', v) :: rest => if k' = k then some v else mapGet rest k

/-- `Map.set`: replace in place when the key is present, else append. -/
def mapSet (m : PeerMap) (k : String) (v : Metric) : PeerMap :=
  match m with
  | [] => [(k, v)]
  | (k', v') :: rest => if k' = k then (k', v) :: rest else (k', v') :: mapSet rest k v

/-- `Map.has`. -/
def mapHas (m : PeerMap) (k : String) : Bool :=
  (mapGet m k).isSome

/-- One entry of the external API `/leaderboard` snapshot; the several
possible field spellings are separate optional fields. -/
structure ApiEntry where
  peerId : String
  participation : Option Int
  participations : Option Int
  score : Option Int
  trainingRewards : Option Int
  training_rewards : Option Int
  reward : Option Int
deriving DecidableEq

/-- One peer record of the `/gossip-messages` response. -/
structure GossipPeer where
  peerId : Option String
  peer_id : Option String
  id : Option String
  participations : Option Int
  score : Option Int
  rewards : Option Int
  reward : Option Int
deriving DecidableEq

/-- One entry of the `/top-rewards` response. -/
structure RewardEntry where
  peerId : Option String
  peer_id : Option String
  totalRewards : Option Int
  total_rewards : Option Int
  reward : Option Int
  participations : Option Int
  score : Option Int
deriving DecidableEq

/-- One row read back from `winner_events` (`select peer_id, round_number`). -/
structure BcEvent where
  peer_id : String
  round_number : Option Int
deriving DecidableEq

/-- Seeding step for one `/leaderboard` entry:
`peerMap.set(entry.peerId, { participations: entry.participation ??
entry.participations ?? entry.score ?? 0, wins: entry.trainingRewards ??
entry.training_rewards ?? entry.reward ?? 0, source: "api" })`. -/
def seedApiEntry (m : PeerMap) (e : ApiEntry) : PeerMap :=
  let participation := jsCoalesce [e.participation, e.participations, e.score] 0
  let rewards := jsCoalesce [e.trainingRewards, e.training_rewards, e.reward] 0
  mapSet m e.peerId ⟨participation, rewards, Source.api⟩

/-- Seeding step for one gossip peer: added only when the (truthy) id is new. -/
def seedGossipPeer (m : PeerMap) (p : GossipPeer) : PeerMap :=
  match jsOrStr [p.peerId, p.peer_id, p.id] with
  | some pid =>
      if mapHas m pid then m
      else mapSet m pid ⟨jsOrInt [p.participations, p.score] 0, jsOrInt [p.rewards, p.reward] 0, Source.api⟩
  | none => m

/-- Step for one `/top-rewards` entry: raise `wins` to `max` for an existing
peer, else create a fresh api-sourced metric. -/
def seedRewardEntry (m : PeerMap) (e : RewardEntry) : PeerMap :=
  match jsOrStr [e.peerId, e.peer_id] with
  | some pid =>
      let rewards := jsOrInt [e.totalRewards, e.total_rewards, e.reward] 0
      match mapGet m pid with
      | some ex => mapSet m pid ⟨ex.participations, max ex.wins rewards, ex.source⟩
      | none => mapSet m pid ⟨jsOrInt [e.participations, e.score] 0, rewards, Source.api⟩
  | none => m

/-- Merge step for one blockchain winner event (guarded by `if (peerId)`):
an existing peer gets `+1` participations, `+1` wins and source `both`; an
absent peer is created with `participations = wins = 1`, source `blockchain`. -/
def applyEvent (m : PeerMap) (pid : String) : PeerMap :=
  if pid = String.mk [] then m
  else
    match mapGet m pid with
    | some ex => mapSet m pid ⟨ex.participations + 1, ex.wins + 1, Source.both⟩
    | none => mapSet m pid ⟨1, 1, Source.blockchain⟩

/-- The API-side seeding: `/leaderboard` entries, then gossip peers, then
top-rewards entries, in source order. -/
def seedMap (api : List ApiEntry) (gossip : List GossipPeer) (tr : List RewardEntry) : PeerMap :=
  (tr.foldl seedRewardEntry (gossip.foldl seedGossipPeer (api.foldl seedApiEntry [])))

/-- `if (blockchainEvents && blockchainEvents.length > 0) { forEach ... }`. -/
def mergeEvents (m : PeerMap) (evs : Option (List BcEvent)) : PeerMap :=
  match evs with
  | some l => if l.length > 0 then l.foldl (fun acc e => applyEvent acc e.peer_id) m else m
  | none => m

/-- The full merged peer map of one cache-miss build. -/
def buildPeerMap (api : List ApiEntry) (gossip : List GossipPeer) (tr : List RewardEntry)
    (evs : Option (List BcEvent)) : PeerMap :=
  mergeEvents (seedMap api gossip tr) evs

/-- A leaderboard entry `{rank, peerId, participations, wins}`. -/
structure Entry where
  rank : Nat
  peerId : String
  participations : Int
  wins : Int
deriving DecidableEq

/-- `Array.from(peerMap.entries()).map(...)` with `rank: 0` placeholders. -/
def toEntries (m : PeerMap) : List Entry :=
  m.map (fun kv => ⟨0, kv.1, kv.2.participations, kv.2.wins⟩)

/-- The sort comparator as a total preorder: participations descending, then
wins descending, then peerId ascending. -/
def entryLe (a b : Entry) : Prop :=
  b.participations < a.participations ∨
    (a.participations = b.participations ∧ b.wins < a.wins) ∨
      (a.participations = b.participations ∧ a.wins = b.wins ∧ a.peerId ≤ b.peerId)

instance : DecidableRel entryLe := fun a b => by
  unfold entryLe
  infer_instance

instance : IsTotal Entry entryLe := by
  constructor
  intro a b
  unfold entryLe
  rcases lt_trichotomy a.participations b.participations with hp | hp | hp
  · exact Or.inr (Or.inl hp)
  · rcases lt_trichotomy a.wins b.wins with hw | hw | hw
    · exact Or.inr (Or.inr (Or.inl ⟨hp.symm, hw⟩))
    · rcases le_total a.peerId b.peerId with hs | hs
      · exact Or.inl (Or.inr (Or.inr ⟨hp, hw, hs⟩))
      · exact Or.inr (Or.inr (Or.inr ⟨hp.symm, hw.symm, hs⟩))
    · exact Or.inl (Or.inr (Or.inl ⟨hp, hw⟩))
  · exact Or.inl (Or.inl hp)

instance : IsTrans Entry entryLe := by
  constructor
  intro a b c hab hbc
  unfold entryLe at *
  rcases hab with h1 | ⟨h1, h2⟩ | ⟨h1, h2, h3⟩ <;>
    rcases hbc with g1 | ⟨g1, g2⟩ | ⟨g1, g2, g3⟩
  · exact Or.inl (lt_trans g1 h1)
  · exact Or.inl (g1 ▸ h1)
  · exact Or.inl (g1 ▸ h1)
  · exact Or.inl (h1 ▸ g1)
  · exact Or.inr (Or.inl ⟨h1.trans g1, lt_trans g2 h2⟩)
  · exact Or.inr (Or.inl ⟨h1.trans g1, g2 ▸ h2⟩)
  · exact Or.inl (h1 ▸ g1)
  · exact Or.inr (Or.inl ⟨h1.trans g1, h2 ▸ g2⟩)
  · exact Or.inr (Or.inr ⟨h1.trans g1, h2.trans g2, le_trans h3 g3⟩)

/-- `entries.sort(comparator)`: since the comparator is a total preorder we
model the JS sort as insertion sort with respect to `entryLe`. -/
def sortEntries (l : List Entry) : List Entry :=
  List.insertionSort entryLe l

/-- `entries.forEach((entry, index) => { entry.rank = index + 1 })`,
with the running index made explicit. -/
def assignRanksFrom : Nat → List Entry → List Entry
  | _, [] => []
  | n, e :: rest => { e with rank := n + 1 } :: assignRanksFrom (n + 1) rest

/-- Rank assignment starting from index 0. -/
def assignRanks (l : List Entry) : List Entry :=
  assignRanksFrom 0 l

/-- The Leaderboard Builder `rank`: sort the merged map and assign positional
1-based ranks. -/
def rankEntries (m : PeerMap) : List Entry :=
  assignRanks (sortEntries (toEntries m))

/-- The `stats` block of a built leaderboard. -/
structure Stats where
  currentRound : Int
  currentStage : Int
  uniqueVoters : Int
  uniqueVotedPeers : Nat
deriving DecidableEq

/-- The `peerSources` counters. -/
structure PeerSources where
  fromApi : Nat
  fromBlockchain : Nat
  total : Nat
deriving DecidableEq

/-- Counting loop over the peer map: `both` counts toward both sides. -/
def countSources (m : PeerMap) : PeerSources :=
  m.foldl
    (fun acc kv =>
      match kv.2.source with
      | Source.api => ⟨acc.fromApi + 1, acc.fromBlockchain, acc.total⟩
      | Source.blockchain => ⟨acc.fromApi, acc.fromBlockchain + 1, acc.total⟩
      | Source.both => ⟨acc.fromApi + 1, acc.fromBlockchain + 1, acc.total⟩)
    ⟨0, 0, m.length⟩

/-- A built leaderboard (`CacheData` in the code). -/
structure CacheData where
  entries : List Entry
  updatedAt : String
  stats : Stats
  peerSources : PeerSources
deriving DecidableEq

/-- The `/leaderboard` response body. -/
structure LeaderboardResponse where
  entries : Option (List ApiEntry)
  updatedAt : Option String
deriving DecidableEq

/-- The `/gossip-messages` response body. -/
structure GossipResponse where
  peers : Option (List GossipPeer)
deriving DecidableEq

/-- The `/top-rewards` response body. -/
structure TopRewardsResponse where
  rewards : Option (List RewardEntry)
deriving DecidableEq

/-- The `/network-stats` response body. -/
structure NetworkStatsResponse where
  completedTransactions : Option Int
deriving DecidableEq

/-- The `/nodes-connected` response body. -/
structure NodesConnectedResponse where
  count : Option Int
deriving DecidableEq

/-- The `/unique-voters` response body. -/
structure UniqueVotersResponse where
  uniqueVoters : Option Int
  count : Option Int
deriving DecidableEq

/-- The six concurrently fetched upstream responses of one cache-miss build. -/
structure Upstream where
  leaderboard : LeaderboardResponse
  networkStats : NetworkStatsResponse
  nodesConnected : NodesConnectedResponse
  uniqueVoters : UniqueVotersResponse
  gossip : GossipResponse
  topRewards : TopRewardsResponse
deriving DecidableEq

/-- The body of a successful cache-miss build, given the upstream responses,
the Event Store read (`none` when the select reported an error) and the
current ISO time string (`new Date().toISOString()`). -/
def buildCacheData (u : Upstream) (evs : Option (List BcEvent)) (nowIso : String) : CacheData :=
  let m := buildPeerMap (u.leaderboard.entries.getD []) (u.gossip.peers.getD [])
    (u.topRewards.rewards.getD []) evs
  let entries := rankEntries m
  { entries := entries
    updatedAt :=
      match u.leaderboard.updatedAt with
      | some s => if s = String.mk [] then nowIso else s
      | none => nowIso
    stats :=
      { currentRound := jsOrInt [u.networkStats.completedTransactions] 0
        currentStage := jsOrInt [u.nodesConnected.count] 0
        uniqueVoters := jsOrInt [u.uniqueVoters.uniqueVoters, u.uniqueVoters.count] 0
        uniqueVotedPeers := entries.length }
    peerSources := countSources m }

/-- The module-level mutable cache: `cache` and `cacheTimestamp`. -/
structure LbState where
  cache : Option CacheData
  cacheTimestamp : Nat
deriving DecidableEq

/-- How many upstream fetch rounds and Event Store reads a call performed. -/
structure FetchCount where
  apiFetches : Nat
  dbReads : Nat
deriving DecidableEq

/-- `CACHE_TTL = 60000` milliseconds. -/
def CACHE_TTL : Nat := 60000

/-- `buildFullLeaderboard()`: return the cached entry when it is fresh;
otherwise rebuild from the upstream responses (`upstream = none` models the
`Promise.all` of API fetches throwing: the catch returns the stale cache when
one exists and otherwise rethrows). Returns the result, the new module state
and the fetch counts. -/
def buildFullLeaderboard (st : LbState) (now : Nat) (upstream : Option Upstream)
    (evs : Option (List BcEvent)) (nowIso : String) :
    Except String CacheData × LbState × FetchCount :=
  match st.cache with
  | some c =>
      if now - st.cacheTimestamp < CACHE_TTL then (Except.ok c, st, ⟨0, 0⟩)
      else
        match upstream with
        | none => (Except.ok c, st, ⟨1, 0⟩)
        | some u =>
            let result := buildCacheData u evs nowIso
            (Except.ok result, ⟨some result, now⟩, ⟨1, 1⟩)
  | none =>
      match upstream with
      | none => (Except.error (String.mk []), st, ⟨1, 0⟩)
      | some u =>
          let result := buildCacheData u evs nowIso
          (Except.ok result, ⟨some result, now⟩, ⟨1, 1⟩)

/-- The HTTP response of the leaderboard endpoint (error responses carry only
the message). -/
structure ServeResponse where
  status : Nat
  entries : List Entry
  total : Nat
  updatedAt : String
  err : Option String
deriving DecidableEq

/-- The request handler: parses `limit` and `offset`, builds, and responds.
The handler sets `pageEntries = data.entries` (the full list) and
`total = data.entries.length`. -/
def serveLeaderboard (st : LbState) (now : Nat) (upstream : Option Upstream)
    (evs : Option (List BcEvent)) (nowIso : String) (limit offset : Int) :
    ServeResponse × LbState :=
  match buildFullLeaderboard st now upstream evs nowIso with
  | (Except.ok d, st', _) =>
      (⟨200, d.entries, d.entries.length, d.updatedAt, none⟩, st')
  | (Except.error e, st', _) =>
      (⟨500, [], 0, String.mk [], some e⟩, st')

/-- `START_BLOCK = 10000000`. -/
def START_BLOCK : Nat := 10000000

/-- `BATCH_SIZE = 10000`. -/
def BATCH_SIZE : Nat := 10000

/-- `MAX_BLOCKS_PER_RUN = 100000`. -/
def MAX_BLOCKS_PER_RUN : Nat := 100000

/-- One row of the `winner_events` table (the columns the listener writes;
`event_timestamp` is omitted: no claim concerns it). -/
structure EventRow where
  peer_id : String
  block_number : Nat
  transaction_hash : String
  round_number : Nat
deriving DecidableEq

/-- A raw log returned by the Blockscout `getLogs` call. `decoded` is the
result of the ABI decode of `log.data`: `none` when decoding throws (the
per-log catch), otherwise the round number and index-aligned winner list
(the decoded reward values are not written to the store and are omitted). -/
structure RawLog where
  blockNumber : Nat
  transactionHash : String
  decoded : Option (Nat × List String)
deriving DecidableEq

/-- Key lookup for the UNIQUE (transaction_hash, peer_id) constraint. -/
def hasKey (store : List EventRow) (tx pid : String) : Bool :=
  store.any (fun r => r.transaction_hash == tx && r.peer_id == pid)

/-- Number of stored rows with the given (transaction_hash, peer_id) pair. -/
def countKey (store : List EventRow) (tx pid : String) : Nat :=
  (store.filter (fun r => r.transaction_hash == tx && r.peer_id == pid)).length

/-- `upsert(batch, { onConflict: "transaction_hash,peer_id",
ignoreDuplicates: true })` against the UNIQUE constraint of the migration:
each row is inserted only when no row with its key pair is present. -/
def upsertIgnoreDuplicates (store : List EventRow) (batch : List EventRow) : List EventRow :=
  batch.foldl
    (fun st row => if hasKey st row.transaction_hash row.peer_id then st else st ++ [row])
    store

/-- Processing of one decoded log: skip on decode failure; otherwise build the
per-winner insert batch and upsert it, counting `winners.length` processed
events (the model's store writes always succeed). -/
def processLog (store : List EventRow) (processed : Nat) (log : RawLog) :
    List EventRow × Nat :=
  match log.decoded with
  | none => (store, processed)
  | some (round, winners) =>
      if winners.length > 0 then
        (upsertIgnoreDuplicates store
          (winners.map (fun pid => ⟨pid, log.blockNumber, log.transactionHash, round⟩)),
          processed + winners.length)
      else (store, processed)

/-- The mutable state of the sub-batch loop. `stopped` records the `break`
after more than 5 batch errors; `requested` is a ghost log of the
(fromBlock, toBlock) ranges passed to `getLogs`. -/
structure LoopState where
  store : List EventRow
  processedEvents : Nat
  lastProcessedBlock : Nat
  batchErrors : Nat
  stopped : Bool
  requested : List (Nat × Nat)
deriving DecidableEq

/-- One iteration of `for (let start = fromBlock; start < targetBlock;
start += BATCH_SIZE)`: compute `end = min(start + BATCH_SIZE - 1,
targetBlock)`, fetch logs for `[start, end]`; on success process every log and
set `lastProcessedBlock = end`; on a thrown batch error count it and stop once
`batchErrors > 5`. -/
def syncStep (fetchLogs : Nat → Nat → Except Unit (List RawLog)) (target : Nat)
    (s : LoopState) (start : Nat) : LoopState :=
  if s.stopped then s
  else
    let endB := min (start + (BATCH_SIZE - 1)) target
    let s1 : LoopState := { s with requested := s.requested ++ [(start, endB)] }
    match fetchLogs start endB with
    | Except.ok logs =>
        let p := logs.foldl (fun acc log => processLog acc.1 acc.2 log)
          (s1.store, s1.processedEvents)
        { s1 with store := p.1, processedEvents := p.2, lastProcessedBlock := endB }
    | Except.error _ =>
        let errs := s1.batchErrors + 1
        { s1 with batchErrors := errs, stopped := decide (errs > 5) }

/-- The start values visited by the loop header: `fromBlock + BATCH_SIZE * i`
for every `i` with `fromBlock + BATCH_SIZE * i < targetBlock`. -/
def batchStarts (fromB target : Nat) : List Nat :=
  (List.range ((target - fromB + (BATCH_SIZE - 1)) / BATCH_SIZE)).map
    (fun i => fromB + BATCH_SIZE * i)

/-- The whole sub-batch loop as a fold over its start values. -/
def runLoop (fetchLogs : Nat → Nat → Except Unit (List RawLog)) (fromB target : Nat)
    (store : List EventRow) : LoopState :=
  (batchStarts fromB target).foldl (syncStep fetchLogs target)
    ⟨store, 0, fromB, 0, false, []⟩

/-- The outcome of one sync invocation: the JSON response fields the claims
concern, the resulting store and persisted cursor, and the ghost observations
`targetBlock` and `requested`. -/
structure SyncResult where
  success : Bool
  fromBlock : Nat
  toBlock : Nat
  currentBlock : Nat
  processedEvents : Nat
  remainingBlocks : Nat
  needsMoreSync : Bool
  batchErrors : Nat
  targetBlock : Nat
  requested : List (Nat × Nat)
  store : List EventRow
  newCursor : Option Nat
deriving DecidableEq

/-- One invocation of the blockchain-listener handler. `cursor` is the
persisted `last_synced_block` (if a metadata row exists), `head` the chain
head reported by Blockscout (`none` when that request throws, producing the
503 early return with no cursor or store change). After the loop the cursor
is upserted to `lastProcessedBlock` only when it exceeds `fromBlock`. -/
def syncRun (cursor : Option Nat) (head : Option Nat)
    (fetchLogs : Nat → Nat → Except Unit (List RawLog)) (store : List EventRow) :
    SyncResult :=
  let fromB := jsOrNat cursor START_BLOCK
  match head with
  | none =>
      { success := false, fromBlock := fromB, toBlock := fromB, currentBlock := 0,
        processedEvents := 0, remainingBlocks := 0, needsMoreSync := false,
        batchErrors := 0, targetBlock := 0, requested := [], store := store,
        newCursor := cursor }
  | some h =>
      let target := min (fromB + MAX_BLOCKS_PER_RUN) h
      let final := runLoop fetchLogs fromB target store
      { success := true
        fromBlock := fromB
        toBlock := final.lastProcessedBlock
        currentBlock := h
        processedEvents := final.processedEvents
        remainingBlocks := h - final.lastProcessedBlock
        needsMoreSync := decide (h - final.lastProcessedBlock > 0)
        batchErrors := final.batchErrors
        targetBlock := target
        requested := final.requested
        store := final.store
        newCursor :=
          if final.lastProcessedBlock > fromB then some final.lastProcessedBlock else cursor }

/-- Strict before relation of the total sort order: participations
descending, then wins descending, then peerId strictly ascending. -/
def entryBefore (a b : Entry) : Prop :=
  b.participations < a.participations ∨
    (a.participations = b.participations ∧ b.wins < a.wins) ∨
      (a.participations = b.participations ∧ a.wins = b.wins ∧ a.peerId < b.peerId)

/-- The inherent JS `Map` invariant: the keys of the association list are
pairwise distinct. -/
def keysNodup (m : PeerMap) : Prop :=
  (m.map Prod.fst).Nodup

/-- Number of Event Store rows naming a given peer. -/
def countBc (evs : List BcEvent) (pid : String) : Nat :=
  (evs.filter (fun e => e.peer_id == pid)).length

/-- Concrete peer identifiers for witnesses and counterexamples. -/
def pidA : String := "A"

/-- Second concrete peer identifier. -/
def pidB : String := "B"

/-- Third concrete peer identifier. -/
def pidC : String := "C"

/-- Fourth concrete peer identifier. -/
def pidP : String := "p"

/-- A concrete transaction hash. -/
def txh : String := "0xabc"

/-- A concrete ISO time string. -/
def iso0 : String := "1970-01-01T00:00:00.000Z"

/-- API snapshot entry reporting peer A with 5 participations and no reward
field (the scenario of the merge-completeness property). -/
def apiA : ApiEntry :=
  ⟨pidA, some 5, none, none, none, none, none⟩

/-- API snapshot entry: peer A with 3 participations. -/
def apiE1 : ApiEntry :=
  ⟨pidA, some 3, none, none, none, none, none⟩

/-- API snapshot entry: peer B with 2 participations. -/
def apiE2 : ApiEntry :=
  ⟨pidB, some 2, none, none, none, none, none⟩

/-- Event Store row naming peer A. -/
def evA : BcEvent := ⟨pidA, none⟩

/-- Event Store row naming peer B. -/
def evB : BcEvent := ⟨pidB, none⟩

/-- Event Store row naming peer p. -/
def evP : BcEvent := ⟨pidP, none⟩

/-- A gossip-messages peer record for peer C. -/
def gossipC : GossipPeer :=
  ⟨some pidC, none, none, none, none, none, none⟩

/-- Upstream responses with every list empty and every counter absent. -/
def emptyUp : Upstream :=
  ⟨⟨some [], some iso0⟩, ⟨none⟩, ⟨none⟩, ⟨none, none⟩, ⟨some []⟩, ⟨some []⟩⟩

/-- Upstream responses whose leaderboard snapshot reports peers A and B. -/
def up2 : Upstream :=
  ⟨⟨some [apiE1, apiE2], some iso0⟩, ⟨none⟩, ⟨none⟩, ⟨none, none⟩, ⟨some []⟩, ⟨some []⟩⟩

/-- The leaderboard built from the empty upstream snapshot. -/
def cd0 : CacheData := buildCacheData emptyUp (some []) iso0

/-- The two-entry leaderboard built from `up2`. -/
def d2 : CacheData := buildCacheData up2 (some []) iso0

/-- A concrete peer map with a score tie between peers A and B. -/
def m0 : PeerMap :=
  [(pidB, ⟨2, 5, Source.api⟩), (pidA, ⟨2, 5, Source.blockchain⟩), (pidC, ⟨3, 0, Source.api⟩)]

/-- A log fetcher that always succeeds with no logs. -/
def fOk : Nat → Nat → Except Unit (List RawLog) :=
  fun _ _ => Except.ok []

/-- A log fetcher whose call for the sub-batch starting at block 50 throws,
while the next sub-batch succeeds with one decodable log at block 10050. -/
def fFail : Nat → Nat → Except Unit (List RawLog) :=
  fun s _ => if s = 50 then Except.error () else Except.ok [⟨10050, txh, some (1, [pidP])⟩]

/-- A concrete stored winner event row. -/
def row0 : EventRow := ⟨pidP, 10050, txh, 1⟩

theorem mapGet_mapSet_self (m : PeerMap) (k : String) (v : Metric) :
    mapGet (mapSet m k v) k = some v := by
  induction m with
  | nil => simp [mapSet, mapGet]
  | cons hd tl ih =>
      by_cases h : hd.1 = k
      · simp [mapSet, mapGet, h]
      · simp [mapSet, mapGet, h, ih]

theorem mapGet_mapSet_ne (m : PeerMap) (k : String) (v : Metric) (q : String)
    (hq : q ≠ k) : mapGet (mapSet m k v) q = mapGet m q := by
  induction m with
  | nil => simp [mapSet, mapGet, Ne.symm hq]
  | cons hd tl ih =>
      by_cases h : hd.1 = k
      · by_cases h2 : hd.1 = q
        · exact absurd (h2.symm.trans h) hq
        · simp [mapSet, mapGet, h, h2, Ne.symm hq]
      · by_cases h2 : hd.1 = q <;> simp [mapSet, mapGet, h, h2, hq, ih]

theorem applyEvent_get_other (m : PeerMap) (pid q : String) (h : q ≠ pid) :
    mapGet (applyEvent m pid) q = mapGet m q := by
  unfold applyEvent
  by_cases he : pid = String.mk []
  · simp [he]
  · simp only [if_neg he]
    cases hg : mapGet m pid <;> simp [mapGet_mapSet_ne _ _ _ _ h]

theorem mergeEvents_some (m : PeerMap) (evs : List BcEvent) :
    mergeEvents m (some evs) = evs.foldl (fun acc e => applyEvent acc e.peer_id) m := by
  cases evs <;> simp [mergeEvents]

theorem countBc_cons_self (e : BcEvent) (rest : List BcEvent) (pid : String)
    (he : e.peer_id = pid) : countBc (e :: rest) pid = countBc rest pid + 1 := by
  simp [countBc, List.filter_cons, he]

theorem countBc_cons_other (e : BcEvent) (rest : List BcEvent) (pid : String)
    (he : ¬ e.peer_id = pid) : countBc (e :: rest) pid = countBc rest pid := by
  simp [countBc, List.filter_cons, he]

theorem foldApply_get_some (evs : List BcEvent) (m : PeerMap) (pid : String)
    (v : Metric) (hne : pid ≠ String.mk []) (hv : mapGet m pid = some v) :
    ∃ s, mapGet (evs.foldl (fun acc e => applyEvent acc e.peer_id) m) pid =
      some ⟨v.participations + (countBc evs pid : Int), v.wins + (countBc evs pid : Int), s⟩ := by
  induction evs generalizing m v with
  | nil =>
      refine ⟨v.source, ?_⟩
      simpa [countBc] using hv
  | cons e rest ih =>
      simp only [List.foldl_cons]
      by_cases he : e.peer_id = pid
      · have h1 : applyEvent m e.peer_id =
            mapSet m pid ⟨v.participations + 1, v.wins + 1, Source.both⟩ := by
          rw [he]
          simp [applyEvent, hne, hv]
        have h2 := mapGet_mapSet_self m pid ⟨v.participations + 1, v.wins + 1, Source.both⟩
        obtain ⟨s, hs⟩ := ih _ _ h2
        refine ⟨s, ?_⟩
        rw [h1, hs, countBc_cons_self e rest pid he]
        simp only [Option.some.injEq, Metric.mk.injEq]
        refine ⟨by push_cast; ring, by push_cast; ring, trivial⟩
      · have h1 : mapGet (applyEvent m e.peer_id) pid = some v := by
          rw [applyEvent_get_other m e.peer_id pid (Ne.symm he)]
          exact hv
        obtain ⟨s, hs⟩ := ih _ _ h1
        exact ⟨s, by rw [countBc_cons_other e rest pid he]; exact hs⟩

theorem foldApply_get_none (evs : List BcEvent) (m : PeerMap) (pid : String)
    (hne : pid ≠ String.mk []) (hm : mapGet m pid = none) :
    (countBc evs pid = 0 ∧
      mapGet (evs.foldl (fun acc e => applyEvent acc e.peer_id) m) pid = none) ∨
    (∃ s, mapGet (evs.foldl (fun acc e => applyEvent acc e.peer_id) m) pid =
      some ⟨(countBc evs pid : Int), (countBc evs pid : Int), s⟩) := by
  induction evs generalizing m with
  | nil => exact Or.inl ⟨by simp [countBc], hm⟩
  | cons e rest ih =>
      simp only [List.foldl_cons]
      by_cases he : e.peer_id = pid
      · have h1 : applyEvent m e.peer_id = mapSet m pid ⟨1, 1, Source.blockchain⟩ := by
          rw [he]
          simp [applyEvent, hne, hm]
        have h2 := mapGet_mapSet_self m pid ⟨1, 1, Source.blockchain⟩
        obtain ⟨s, hs⟩ := foldApply_get_some rest _ pid _ hne h2
        refine Or.inr ⟨s, ?_⟩
        rw [h1, hs, countBc_cons_self e rest pid he]
        simp only [Option.some.injEq, Metric.mk.injEq]
        refine ⟨by push_cast; ring, by push_cast; ring, trivial⟩
      · have h1 : mapGet (applyEvent m e.peer_id) pid = none := by
          rw [applyEvent_get_other m e.peer_id pid (Ne.symm he)]
          exact hm
        rcases ih _ h1 with ⟨hc, hg⟩ | ⟨s, hs⟩
        · exact Or.inl ⟨by rw [countBc_cons_other e rest pid he]; exact hc, hg⟩
        · exact Or.inr ⟨s, by rw [countBc_cons_other e rest pid he]; exact hs⟩

/-- C2 (counterexample): with the API snapshot reporting peer A with 5
participations and no reward field, and chain events [A, A, B], the merged
metric of A is not `{participations := 7, wins := 7, both}` — its wins are
the API rewards baseline 0 plus 2 chain increments. -/
theorem merge_example_counterexample :
    mapGet (buildPeerMap [apiA] [] [] (some [evA, evA, evB])) pidA ≠
      some ⟨7, 7, Source.both⟩ := by
  decide

/-- C2 (amended): the merged map for snapshot `{A: 5 participations}` and
events [A, A, B] is exactly `{A: participations 7, wins 2, both;
B: participations 1, wins 1, chain-only}`; in general a chain event for a
present peer adds +1 to both participations and wins and sets provenance to
both, and a chain event for an absent peer creates `participations = wins = 1`
with provenance chain-only. -/
theorem merge_arithmetic :
    buildPeerMap [apiA] [] [] (some [evA, evA, evB]) =
      [(pidA, ⟨7, 2, Source.both⟩), (pidB, ⟨1, 1, Source.blockchain⟩)] ∧
    (∀ (m : PeerMap) (pid : String) (v : Metric), pid ≠ String.mk [] →
      mapGet m pid = some v →
      applyEvent m pid = mapSet m pid ⟨v.participations + 1, v.wins + 1, Source.both⟩) ∧
    (∀ (m : PeerMap) (pid : String), pid ≠ String.mk [] → mapGet m pid = none →
      applyEvent m pid = mapSet m pid ⟨1, 1, Source.blockchain⟩) := by
  refine ⟨by decide, ?_, ?_⟩
  · intro m pid v hne hv
    simp [applyEvent, hne, hv]
  · intro m pid hne hm
    simp [applyEvent, hne, hm]

/-- C2 (witness): the increment rule applied to a map holding peer A with the
API baseline `{participations 5, wins 0}`. -/
theorem merge_arithmetic_witness :
    applyEvent [(pidA, ⟨5, 0, Source.api⟩)] pidA =
      mapSet [(pidA, ⟨5, 0, Source.api⟩)] pidA
        ⟨(⟨5, 0, Source.api⟩ : Metric).participations + 1,
          (⟨5, 0, Source.api⟩ : Metric).wins + 1, Source.both⟩ :=
  merge_arithmetic.2.1 [(pidA, ⟨5, 0, Source.api⟩)] pidA ⟨5, 0, Source.api⟩
    (by decide) (by decide)

/-- C4 (counterexample): two builds that agree on the /leaderboard snapshot
(empty) and on the Event Store (empty) but differ in the gossip-messages
response produce different merged maps, so the merged metrics are not a
function of the /leaderboard snapshot and the Event Store alone. -/
theorem aux_endpoints_counterexample :
    buildPeerMap [] [gossipC] [] (some []) ≠ buildPeerMap [] [] [] (some []) := by
  decide

/-- C4 (amended): the merged metrics are a function of the /leaderboard
snapshot, the gossip-messages and top-rewards responses, and the Event Store;
only network-stats, nodes-connected and unique-voters are display-only: the
built entries and peer-source counters are invariant under any change to
those three responses. -/
theorem stats_endpoints_display_only :
    ∀ (lb : LeaderboardResponse) (g : GossipResponse) (tr : TopRewardsResponse)
      (ns ns2 : NetworkStatsResponse) (nc nc2 : NodesConnectedResponse)
      (uv uv2 : UniqueVotersResponse) (evs : Option (List BcEvent)) (iso : String),
      (buildCacheData ⟨lb, ns, nc, uv, g, tr⟩ evs iso).entries =
        (buildCacheData ⟨lb, ns2, nc2, uv2, g, tr⟩ evs iso).entries ∧
      (buildCacheData ⟨lb, ns, nc, uv, g, tr⟩ evs iso).peerSources =
        (buildCacheData ⟨lb, ns2, nc2, uv2, g, tr⟩ evs iso).peerSources := by
  intro lb g tr ns ns2 nc nc2 uv uv2 evs iso
  exact ⟨rfl, rfl⟩

/-- C10: a peer absent from every API source (so its metric, if any, is
created chain-only) ends the merge with participations equal to wins, both
equal to the number of its Event Store rows. -/
theorem chain_only_equal_counts (api : List ApiEntry) (gossip : List GossipPeer)
    (tr : List RewardEntry) (evs : List BcEvent) (pid : String) (v : Metric)
    (hne : pid ≠ String.mk []) (habs : mapGet (seedMap api gossip tr) pid = none)
    (hv : mapGet (buildPeerMap api gossip tr (some evs)) pid = some v) :
    v.participations = v.wins ∧ v.wins = (countBc evs pid : Int) := by
  rw [buildPeerMap, mergeEvents_some] at hv
  rcases foldApply_get_none evs _ pid hne habs with ⟨_, hg⟩ | ⟨s, hs⟩
  · rw [hg] at hv
    cases hv
  · rw [hs] at hv
    simp only [Option.some.injEq] at hv
    subst hv
    exact ⟨rfl, rfl⟩

/-- C10 (witness): peer p, absent from all API sources, with two Event Store
rows, ends with participations = wins = 2. -/
theorem chain_only_equal_counts_witness :
    (⟨2, 2, Source.both⟩ : Metric).participations = (⟨2, 2, Source.both⟩ : Metric).wins ∧
    (⟨2, 2, Source.both⟩ : Metric).wins = (countBc [evP, evP] pidP : Int) :=
  chain_only_equal_counts [] [] [] [evP, evP] pidP ⟨2, 2, Source.both⟩
    (by decide) (by decide) (by decide)

theorem length_assignRanksFrom (l : List Entry) (n : Nat) :
    (assignRanksFrom n l).length = l.length := by
  induction l generalizing n with
  | nil => simp [assignRanksFrom]
  | cons e rest ih => simp [assignRanksFrom, ih]

theorem get_assignRanksFrom (l : List Entry) (n i : Nat)
    (h : i < (assignRanksFrom n l).length) :
    ((assignRanksFrom n l).get ⟨i, h⟩).rank = n + i + 1 := by
  induction l generalizing n i with
  | nil => simp [assignRanksFrom] at h
  | cons e rest ih =>
      cases i with
      | zero => simp [assignRanksFrom]
      | succ j =>
          have hj : j < (assignRanksFrom (n + 1) rest).length := by
            simpa [assignRanksFrom] using h
          have hr := ih (n + 1) j hj
          simp only [assignRanksFrom, List.get_cons_succ]
          omega

theorem mem_assignRanksFrom (l : List Entry) (n : Nat) (b : Entry)
    (hb : b ∈ assignRanksFrom n l) :
    ∃ a ∈ l, b.peerId = a.peerId ∧ b.participations = a.participations ∧ b.wins = a.wins := by
  induction l generalizing n with
  | nil => simp [assignRanksFrom] at hb
  | cons e rest ih =>
      simp only [assignRanksFrom, List.mem_cons] at hb
      rcases hb with hb | hb
      · subst hb
        exact ⟨e, List.mem_cons_self e rest, rfl, rfl, rfl⟩
      · obtain ⟨a, ha, h⟩ := ih (n + 1) hb
        exact ⟨a, List.mem_cons_of_mem e ha, h⟩

theorem pairwise_entryBefore_assignRanksFrom (l : List Entry) (n : Nat)
    (hp : l.Pairwise entryBefore) : (assignRanksFrom n l).Pairwise entryBefore := by
  induction l generalizing n with
  | nil => simp [assignRanksFrom]
  | cons e rest ih =>
      rw [List.pairwise_cons] at hp
      refine List.Pairwise.cons ?_ (ih (n + 1) hp.2)
      intro b hb
      obtain ⟨a, ha, h1, h2, h3⟩ := mem_assignRanksFrom rest (n + 1) b hb
      have hba := hp.1 a ha
      simp only [entryBefore] at hba ⊢
      rw [h1, h2, h3]
      exact hba

theorem sortEntries_sorted (l : List Entry) : List.Sorted entryLe (sortEntries l) :=
  List.sorted_insertionSort entryLe l

theorem sortEntries_perm (l : List Entry) : List.Perm (sortEntries l) l :=
  List.perm_insertionSort entryLe l

theorem entryLe_ne_before {a b : Entry} (h : entryLe a b) (hne : a.peerId ≠ b.peerId) :
    entryBefore a b := by
  rcases h with h | ⟨h1, h2⟩ | ⟨h1, h2, h3⟩
  · exact Or.inl h
  · exact Or.inr (Or.inl ⟨h1, h2⟩)
  · exact Or.inr (Or.inr ⟨h1, h2, lt_of_le_of_ne h3 hne⟩)

theorem toEntries_pairwise_ne (m : PeerMap) (h : keysNodup m) :
    (toEntries m).Pairwise (fun a b => a.peerId ≠ b.peerId) := by
  unfold keysNodup List.Nodup at h
  rw [List.pairwise_map] at h
  unfold toEntries
  rw [List.pairwise_map]
  exact h

theorem rankEntries_pairwise (m : PeerMap) (h : keysNodup m) :
    (rankEntries m).Pairwise entryBefore := by
  have hs : List.Sorted entryLe (sortEntries (toEntries m)) := sortEntries_sorted _
  have hperm := sortEntries_perm (toEntries m)
  have hne : (sortEntries (toEntries m)).Pairwise (fun a b => a.peerId ≠ b.peerId) :=
    (List.Perm.pairwise_iff (fun hxy => hxy.symm) hperm).mpr (toEntries_pairwise_ne m h)
  have hb : (sortEntries (toEntries m)).Pairwise entryBefore :=
    (List.Pairwise.and hs hne).imp (fun hab => entryLe_ne_before hab.1 hab.2)
  exact pairwise_entryBefore_assignRanksFrom _ 0 hb

/-- C5: for a peer map (whose keys, as in any JS Map, are distinct), `rank`
produces a sequence strictly ordered by participations descending, then wins
descending, then peerId ascending; it is a permutation of the map's entries;
ranks are positional and 1-based (index i holds rank i+1 even on ties); and
the function is deterministic. -/
theorem rank_total_order_positional (m : PeerMap) (h : keysNodup m) :
    (rankEntries m).Pairwise entryBefore ∧
    (∀ (i : Nat) (hi : i < (rankEntries m).length),
      ((rankEntries m).get ⟨i, hi⟩).rank = i + 1) ∧
    List.Perm (sortEntries (toEntries m)) (toEntries m) ∧
    rankEntries m = rankEntries m := by
  refine ⟨rankEntries_pairwise m h, ?_, sortEntries_perm _, rfl⟩
  intro i hi
  have hr := get_assignRanksFrom (sortEntries (toEntries m)) 0 i hi
  simpa using hr

/-- C5 (witness): the ranking at a concrete map with a participations/wins
tie between peers A and B. -/
theorem rank_total_order_positional_witness :
    keysNodup m0 ∧
      ((rankEntries m0).Pairwise entryBefore ∧
        (∀ (i : Nat) (hi : i < (rankEntries m0).length),
          ((rankEntries m0).get ⟨i, hi⟩).rank = i + 1) ∧
        List.Perm (sortEntries (toEntries m0)) (toEntries m0) ∧
        rankEntries m0 = rankEntries m0) :=
  ⟨by unfold keysNodup; decide, rank_total_order_positional m0 (by unfold keysNodup; decide)⟩

theorem build_ok_cache (st : LbState) (t : Nat) (u : Option Upstream)
    (evs : Option (List BcEvent)) (iso : String) (r : CacheData) (st1 : LbState)
    (f : FetchCount) (h : buildFullLeaderboard st t u evs iso = (Except.ok r, st1, f)) :
    st1.cache = some r := by
  obtain ⟨cc, ts⟩ := st
  cases cc with
  | some c =>
      simp only [buildFullLeaderboard] at h
      by_cases hlt : t - ts < CACHE_TTL
      · rw [if_pos hlt] at h
        simp only [Prod.mk.injEq, Except.ok.injEq] at h
        obtain ⟨h1, h2, -⟩ := h
        subst h1
        subst h2
        rfl
      · rw [if_neg hlt] at h
        cases u with
        | none =>
            simp only [Prod.mk.injEq, Except.ok.injEq] at h
            obtain ⟨h1, h2, -⟩ := h
            subst h1
            subst h2
            rfl
        | some u2 =>
            simp only [Prod.mk.injEq, Except.ok.injEq] at h
            obtain ⟨h1, h2, -⟩ := h
            subst h1
            subst h2
            rfl
  | none =>
      simp only [buildFullLeaderboard] at h
      cases u with
      | none => simp at h
      | some u2 =>
          simp only [Prod.mk.injEq, Except.ok.injEq] at h
          obtain ⟨h1, h2, -⟩ := h
          subst h1
          subst h2
          rfl

/-- C8: after any successful build (so the cache holds its result), a second
call strictly within the TTL window returns the identical cached result with
no upstream fetch and no Event Store read, and a call at or after TTL expiry
rebuilds, performing exactly one round of upstream fetches and one store
read. -/
theorem cache_ttl_freshness (st : LbState) (t : Nat) (u : Option Upstream)
    (evs : Option (List BcEvent)) (iso : String) (r : CacheData) (st1 : LbState)
    (f : FetchCount) (h : buildFullLeaderboard st t u evs iso = (Except.ok r, st1, f)) :
    (∀ (now : Nat) (u2 : Option Upstream) (ev2 : Option (List BcEvent)) (iso2 : String),
      now - st1.cacheTimestamp < CACHE_TTL →
      buildFullLeaderboard st1 now u2 ev2 iso2 = (Except.ok r, st1, ⟨0, 0⟩)) ∧
    (∀ (now : Nat) (u3 : Upstream) (ev3 : List BcEvent) (iso3 : String),
      CACHE_TTL ≤ now - st1.cacheTimestamp →
      buildFullLeaderboard st1 now (some u3) (some ev3) iso3 =
        (Except.ok (buildCacheData u3 (some ev3) iso3),
          ⟨some (buildCacheData u3 (some ev3) iso3), now⟩, ⟨1, 1⟩)) := by
  have hc := build_ok_cache st t u evs iso r st1 f h
  constructor
  · intro now u2 ev2 iso2 hlt
    simp [buildFullLeaderboard, hc, hlt]
  · intro now u3 ev3 iso3 hge
    have hlt : ¬ now - st1.cacheTimestamp < CACHE_TTL := not_lt.mpr hge
    simp [buildFullLeaderboard, hc, hlt]

/-- C8 (witness): a successful build at time 0 followed by a call at 30000 ms
returns the cached result with zero fetches. -/
theorem cache_ttl_freshness_witness :
    buildFullLeaderboard ⟨some cd0, 0⟩ 30000 none none iso0 =
      (Except.ok cd0, ⟨some cd0, 0⟩, ⟨0, 0⟩) :=
  (cache_ttl_freshness ⟨none, 0⟩ 0 (some emptyUp) (some []) iso0 cd0 ⟨some cd0, 0⟩
    ⟨1, 1⟩ (by rfl)).1 30000 none none iso0 (by decide)

/-- C7: when every upstream API fetch fails, a cache-miss build returns any
previously cached entry unchanged — even one older than the TTL — leaving the
state untouched; with no cached entry the error propagates and the endpoint
answers with status 500. -/
theorem stale_cache_fallback (st : LbState) (now : Nat) (evs : Option (List BcEvent))
    (iso : String) (limit offset : Int) :
    (∀ c, st.cache = some c →
      (buildFullLeaderboard st now none evs iso).1 = Except.ok c ∧
      (buildFullLeaderboard st now none evs iso).2.1 = st) ∧
    (st.cache = none →
      buildFullLeaderboard st now none evs iso =
        (Except.error (String.mk []), st, ⟨1, 0⟩) ∧
      (serveLeaderboard st now none evs iso limit offset).1.status = 500) := by
  constructor
  · intro c hc
    by_cases hlt : now - st.cacheTimestamp < CACHE_TTL <;>
      simp [buildFullLeaderboard, hc, hlt]
  · intro hc
    have h1 : buildFullLeaderboard st now none evs iso =
        (Except.error (String.mk []), st, ⟨1, 0⟩) := by
      simp [buildFullLeaderboard, hc]
    refine ⟨h1, ?_⟩
    simp [serveLeaderboard, h1]

/-- C7 (witness): a cached entry 100 seconds old is served on upstream
failure; with an empty cache the endpoint answers 500. -/
theorem stale_cache_fallback_witness :
    ((buildFullLeaderboard ⟨some cd0, 0⟩ 100000 none none iso0).1 = Except.ok cd0 ∧
      (buildFullLeaderboard ⟨some cd0, 0⟩ 100000 none none iso0).2.1 = ⟨some cd0, 0⟩) ∧
    (serveLeaderboard ⟨none, 0⟩ 0 none none iso0 1 0).1.status = 500 :=
  ⟨(stale_cache_fallback ⟨some cd0, 0⟩ 100000 none iso0 1 0).1 cd0 rfl,
    ((stale_cache_fallback ⟨none, 0⟩ 0 none iso0 1 0).2 rfl).2⟩

/-- C3 (counterexample): against a cached two-entry state, a request with
limit 1 still answers with 2 entries, so the endpoint does not apply the
limit parameter. -/
theorem pagination_counterexample :
    ¬ (((serveLeaderboard ⟨some d2, 0⟩ 1 none none iso0 1 0).1.entries.length : Int) ≤ 1) := by
  decide

/-- C3 (amended): the endpoint parses but ignores `limit` and `offset`; every
request against the same state returns the identical full ranked sequence
(`total` is its length), so offset=0,limit=50 and offset=50,limit=50 return
identical full sequences rather than disjoint slices. -/
theorem pagination_ignored (st : LbState) (now : Nat) (upstream : Option Upstream)
    (evs : Option (List BcEvent)) (iso : String) (l1 o1 l2 o2 : Int) :
    serveLeaderboard st now upstream evs iso l1 o1 =
      serveLeaderboard st now upstream evs iso l2 o2 ∧
    (∀ (d : CacheData) (st1 : LbState) (f : FetchCount),
      buildFullLeaderboard st now upstream evs iso = (Except.ok d, st1, f) →
      (serveLeaderboard st now upstream evs iso l1 o1).1.entries = d.entries ∧
      (serveLeaderboard st now upstream evs iso l1 o1).1.total = d.entries.length) := by
  refine ⟨rfl, ?_⟩
  intro d st1 f h
  simp [serveLeaderboard, h]

/-- C3 (witness): the full two-entry sequence is returned for limit 50,
offset 0. -/
theorem pagination_ignored_witness :
    (serveLeaderboard ⟨some d2, 0⟩ 1 none none iso0 50 0).1.entries = d2.entries ∧
    (serveLeaderboard ⟨some d2, 0⟩ 1 none none iso0 50 0).1.total = d2.entries.length :=
  (pagination_ignored ⟨some d2, 0⟩ 1 none none iso0 50 0 50 50).2 d2 ⟨some d2, 0⟩
    ⟨0, 0⟩ (by rfl)

theorem upsert_cons (st : List EventRow) (b : EventRow) (rest : List EventRow) :
    upsertIgnoreDuplicates st (b :: rest) =
      upsertIgnoreDuplicates
        (if hasKey st b.transaction_hash b.peer_id then st else st ++ [b]) rest := rfl

theorem hasKey_append_left (st l : List EventRow) (tx pid : String)
    (h : hasKey st tx pid = true) : hasKey (st ++ l) tx pid = true := by
  simp only [hasKey, List.any_append, Bool.or_eq_true]
  exact Or.inl h

theorem hasKey_upsert_mono (batch : List EventRow) : ∀ (st : List EventRow) (tx pid : String),
    hasKey st tx pid = true →
    hasKey (upsertIgnoreDuplicates st batch) tx pid = true := by
  induction batch with
  | nil => intro st tx pid h; exact h
  | cons b rest ih =>
      intro st tx pid h
      rw [upsert_cons]
      apply ih
      by_cases hb : hasKey st b.transaction_hash b.peer_id
      · rw [if_pos hb]; exact h
      · rw [if_neg hb]; exact hasKey_append_left st [b] tx pid h

theorem hasKey_upsert_self (batch : List EventRow) : ∀ (st : List EventRow) (row : EventRow),
    row ∈ batch →
    hasKey (upsertIgnoreDuplicates st batch) row.transaction_hash row.peer_id = true := by
  induction batch with
  | nil => intro st row hr; cases hr
  | cons b rest ih =>
      intro st row hr
      rw [upsert_cons]
      rcases List.mem_cons.mp hr with hb | hb
      · subst hb
        apply hasKey_upsert_mono
        by_cases hk : hasKey st row.transaction_hash row.peer_id
        · rw [if_pos hk]; exact hk
        · rw [if_neg hk]
          simp [hasKey, List.any_append]
      · exact ih _ row hb

theorem upsert_noop (batch : List EventRow) : ∀ (st : List EventRow),
    (∀ row ∈ batch, hasKey st row.transaction_hash row.peer_id = true) →
    upsertIgnoreDuplicates st batch = st := by
  induction batch with
  | nil => intro st _; rfl
  | cons b rest ih =>
      intro st hall
      rw [upsert_cons, if_pos (hall b (List.mem_cons_self b rest))]
      exact ih st (fun row hr => hall row (List.mem_cons_of_mem b hr))

theorem upsert_idem (st : List EventRow) (batch : List EventRow) :
    upsertIgnoreDuplicates (upsertIgnoreDuplicates st batch) batch =
      upsertIgnoreDuplicates st batch :=
  upsert_noop batch _ (fun row hr => hasKey_upsert_self batch st row hr)

theorem hasKey_of_countKey_one (st : List EventRow) (tx pid : String)
    (h : countKey st tx pid = 1) : hasKey st tx pid = true := by
  unfold countKey at h
  unfold hasKey
  rw [List.any_eq_true]
  have hne : st.filter (fun r => r.transaction_hash == tx && r.peer_id == pid) ≠ [] := by
    intro hnil
    rw [hnil] at h
    simp at h
  obtain ⟨r, hr⟩ := List.exists_mem_of_ne_nil _ hne
  exact ⟨r, (List.mem_filter.mp hr).1, (List.mem_filter.mp hr).2⟩

/-- C9: upserting a WinnerEvent whose (transactionHash, peerId) pair is
already stored exactly once is a no-op — the store is unchanged, still holds
exactly one row for the pair, and no error exists in the store semantics —
and re-running the ingestion of any batch leaves the store unchanged. -/
theorem idempotent_ingestion (store : List EventRow) (row : EventRow)
    (h : countKey store row.transaction_hash row.peer_id = 1) :
    upsertIgnoreDuplicates store [row] = store ∧
    countKey (upsertIgnoreDuplicates store [row]) row.transaction_hash row.peer_id = 1 ∧
    ∀ batch, upsertIgnoreDuplicates (upsertIgnoreDuplicates store batch) batch =
      upsertIgnoreDuplicates store batch := by
  have hk := hasKey_of_countKey_one store _ _ h
  have h1 : upsertIgnoreDuplicates store [row] = store := by
    rw [upsert_cons, if_pos hk]
    rfl
  exact ⟨h1, by rw [h1]; exact h, fun batch => upsert_idem store batch⟩

/-- C9 (witness): re-upserting the stored row leaves the single-row store
unchanged. -/
theorem idempotent_ingestion_witness :
    upsertIgnoreDuplicates [row0] [row0] = [row0] ∧
    countKey (upsertIgnoreDuplicates [row0] [row0]) row0.transaction_hash row0.peer_id = 1 ∧
    ∀ batch, upsertIgnoreDuplicates (upsertIgnoreDuplicates [row0] batch) batch =
      upsertIgnoreDuplicates [row0] batch :=
  idempotent_ingestion [row0] row0 (by decide)

theorem mem_batchStarts (fromB target st : Nat) (h : st ∈ batchStarts fromB target) :
    fromB ≤ st ∧ st < target := by
  simp only [batchStarts, List.mem_map, List.mem_range] at h
  obtain ⟨i, hi, rfl⟩ := h
  simp only [BATCH_SIZE] at hi ⊢
  omega

theorem syncStep_requested (fetchLogs : Nat → Nat → Except Unit (List RawLog))
    (target : Nat) (s : LoopState) (start : Nat) :
    (syncStep fetchLogs target s start).requested = s.requested ∨
    (syncStep fetchLogs target s start).requested =
      s.requested ++ [(start, min (start + (BATCH_SIZE - 1)) target)] := by
  unfold syncStep
  by_cases hs : s.stopped = true
  · rw [if_pos hs]
    exact Or.inl rfl
  · rw [if_neg hs]
    refine Or.inr ?_
    cases hf : fetchLogs start (min (start + (BATCH_SIZE - 1)) target) <;>
      simp [hf]

theorem runLoop_requested_bounded (fetchLogs : Nat → Nat → Except Unit (List RawLog))
    (target fromB : Nat) : ∀ (starts : List Nat) (s : LoopState),
    (∀ r ∈ s.requested,
      fromB ≤ r.1 ∧ r.1 ≤ r.2 ∧ r.2 ≤ target ∧ r.2 + 1 - r.1 ≤ BATCH_SIZE) →
    (∀ st ∈ starts, fromB ≤ st ∧ st < target) →
    ∀ r ∈ (starts.foldl (syncStep fetchLogs target) s).requested,
      fromB ≤ r.1 ∧ r.1 ≤ r.2 ∧ r.2 ≤ target ∧ r.2 + 1 - r.1 ≤ BATCH_SIZE := by
  intro starts
  induction starts with
  | nil => intro s hs _ r hr; exact hs r hr
  | cons st rest ih =>
      intro s hs hmem
      simp only [List.foldl_cons]
      apply ih
      · intro r hr
        rcases syncStep_requested fetchLogs target s st with he | he
        · rw [he] at hr
          exact hs r hr
        · rw [he] at hr
          rcases List.mem_append.mp hr with hr2 | hr2
          · exact hs r hr2
          · have hre : r = (st, min (st + (BATCH_SIZE - 1)) target) := by
              simpa using hr2
            subst hre
            have hst := hmem st (List.mem_cons_self st rest)
            have h1 := hst.1
            have h2 := hst.2
            simp only [BATCH_SIZE] at *
            refine ⟨by omega, by omega, by omega, by omega⟩
      · intro q hq
        exact hmem q (List.mem_cons_of_mem st hq)

/-- C6 (amended): each run computes targetBlock = min(lastSyncedBlock +
MAX_BLOCKS_PER_RUN, currentChainHead) and requests logs only for sub-batches
of at most BATCH_SIZE blocks lying inside the closed range [lastSyncedBlock,
targetBlock] — the final sub-batch end is min(start + BATCH_SIZE - 1,
targetBlock), so targetBlock itself may be requested, but never any block
beyond it. -/
theorem sync_range_bounded (cursor : Option Nat) (h : Nat)
    (fetchLogs : Nat → Nat → Except Unit (List RawLog)) (store : List EventRow) :
    (syncRun cursor (some h) fetchLogs store).targetBlock =
      min (jsOrNat cursor START_BLOCK + MAX_BLOCKS_PER_RUN) h ∧
    ∀ r ∈ (syncRun cursor (some h) fetchLogs store).requested,
      jsOrNat cursor START_BLOCK ≤ r.1 ∧ r.1 ≤ r.2 ∧
      r.2 ≤ min (jsOrNat cursor START_BLOCK + MAX_BLOCKS_PER_RUN) h ∧
      r.2 + 1 - r.1 ≤ BATCH_SIZE := by
  refine ⟨rfl, ?_⟩
  intro r hr
  have hr2 : r ∈ ((batchStarts (jsOrNat cursor START_BLOCK)
      (min (jsOrNat cursor START_BLOCK + MAX_BLOCKS_PER_RUN) h)).foldl
        (syncStep fetchLogs (min (jsOrNat cursor START_BLOCK + MAX_BLOCKS_PER_RUN) h))
        ⟨store, 0, jsOrNat cursor START_BLOCK, 0, false, []⟩).requested := hr
  exact runLoop_requested_bounded fetchLogs
    (min (jsOrNat cursor START_BLOCK + MAX_BLOCKS_PER_RUN) h)
    (jsOrNat cursor START_BLOCK) _ _
    (fun r2 hr3 => absurd hr3 (List.not_mem_nil r2))
    (fun st hst => mem_batchStarts _ _ st hst) r hr2

/-- C6 (witness): the bounds at the single requested sub-batch of the run
from cursor 50 with chain head 55. -/
theorem sync_range_bounded_witness :
    jsOrNat (some 50) START_BLOCK ≤ 50 ∧ 50 ≤ 55 ∧
      55 ≤ min (jsOrNat (some 50) START_BLOCK + MAX_BLOCKS_PER_RUN) 55 ∧
      55 + 1 - 50 ≤ BATCH_SIZE :=
  (sync_range_bounded (some 50) 55 fOk []).2 (50, 55) (by decide)

/-- C6 (counterexample): with cursor 50 and chain head 55 the run requests
exactly the closed range [50, 55] whose end equals targetBlock = 55, so the
block at targetBlock is requested, refuting the claimed half-open range
[lastSyncedBlock, targetBlock). -/
theorem sync_range_counterexample :
    (syncRun (some 50) (some 55) fOk []).targetBlock = 55 ∧
    (syncRun (some 50) (some 55) fOk []).requested = [(50, 55)] := by
  decide

/-- C1 (code bug evaluation): a run from cursor 50 with chain head 20050 in
which the getLogs call for sub-batch [50, 10049] throws while sub-batch
[10050, 20049] succeeds with one event: the loop continues past the failed
sub-batch, counts one batch error, and persists last_synced_block = 20049 —
beyond the failed range whose events were never written (the store holds only
the block-10050 row), contradicting the claimed invariant. -/
theorem sync_cursor_advances_past_failed_subbatch :
    (syncRun (some 50) (some 20050) fFail []).newCursor = some 20049 ∧
    (syncRun (some 50) (some 20050) fFail []).batchErrors = 1 ∧
    (syncRun (some 50) (some 20050) fFail []).requested =
      [(50, 10049), (10050, 20049)] ∧
    (syncRun (some 50) (some 20050) fFail []).store = [⟨pidP, 10050, txh, 1⟩] := by
  decide
